import Mathlib

/-!
# Verification of the ecslog context tree, message formatter and logger facade

This file embeds the core of the `ecslog` structured-logging library and
proves (or refutes) the stated behavioural claims about it.

Embedding conventions:
* Go strings handled byte-by-byte by the formatter are modelled as `List Char`
  (all inputs of interest are ASCII, where Go's byte indexing and `List Char`
  indexing coincide).
* `fmt.Fprintf`/JSON encoding are kept abstract: the output buffer is a list
  of output items (literal chunks, printf-directive applications, JSON
  encodings), which preserves exactly the information the verified claims
  are about.
* Go runtime panics (out-of-range string indexing) are modelled by `Except`:
  an expression that would panic evaluates to `.error .indexOutOfRange`.
* The `ctxtree` package implementation and the `fld` `Value`/`Field`
  definitions are not part of the provided sources (only their tests,
  their callers and the spec describe them); those definitions are marked
  `Modelled from the spec:` and follow the specification text.
-/

namespace Ecslog

/-- Modelled from the spec: the `fld.Value` discriminated union (§3 "Value").
The repository's `fld` value definitions are not under the provided sources.
Tags follow the spec's list `String, Int, Int64, Uint, Uint64, Float64, Bool,
Time, Duration, Any`; payloads of tags the claims never inspect
(`Float64`, `Time`, `Duration`) are opaque tokens, and `Any` carries the
opaque boxed payload (`none` standing for Go's `nil` interface value).
The `CtxRef` tag is omitted: the spec treats it as an opaque leaf for
shadowing and no claim exercises it. -/
inductive Value where
  | vString (s : String)
  | vInt (i : Int)
  | vInt64 (i : Int)
  | vUint (n : Nat)
  | vUint64 (n : Nat)
  | vFloat64 (tok : String)
  | vBool (b : Bool)
  | vTime (tok : Int)
  | vDuration (tok : Int)
  | vAny (tok : Option String)
  deriving DecidableEq, Repr

/-- Modelled from the spec: a `fld.Field` is the
`{ key: string, value: Value, standardized: bool }` triple (§3 "Field"). -/
structure Field where
  key : String
  value : Value
  standardized : Bool
  deriving DecidableEq, Repr

/-- `fld.String key s` — a user (non-standardized) string field.
Modelled from the spec: user-field constructors set `standardized = false`
(generated ECS constructors set it to `true` explicitly). -/
def fldString (key s : String) : Field := ⟨key, .vString s, false⟩

/-- `fld.Int key i` — a user integer field. -/
def fldInt (key : String) (i : Int) : Field := ⟨key, .vInt i, false⟩

/-- `fld.Any key v` — a user field wrapping an opaque payload
(`none` = Go `nil`). -/
def fldAny (key : String) (tok : Option String) : Field := ⟨key, .vAny tok, false⟩

/-- Modelled from the spec: the `ctxtree.Ctx` node (§3 "Ctx"): an optional
predecessor snapshot `before`, an ordered local field list, an optional
successor snapshot `after`, and the stored counters `tot_user`, `tot_std`
and `len`.  `nil` stands for an absent (`nil` pointer) context; the
counters are stored in the node and updated by every operation, exactly as
the spec prescribes, so that the counter invariants are provable facts and
not definitions. -/
inductive Ctx where
  | nil : Ctx
  | node (before : Ctx) (fields : List Field) (after : Ctx)
      (totUser totStd totLen : Nat) : Ctx
  deriving DecidableEq, Repr

namespace Ctx

/-- Stored `len` counter (0 for an absent context). -/
def Len : Ctx → Nat
  | .nil => 0
  | .node _ _ _ _ _ n => n

/-- Stored `tot_user` counter. -/
def totUserOf : Ctx → Nat
  | .nil => 0
  | .node _ _ _ u _ _ => u

/-- Stored `tot_std` counter. -/
def totStdOf : Ctx → Nat
  | .nil => 0
  | .node _ _ _ _ s _ => s

/-- The `before` snapshot of a node (`nil` for an absent context). -/
def beforeOf : Ctx → Ctx
  | .nil => .nil
  | .node b _ _ _ _ _ => b

/-- The ordered local field list of a node. -/
def localsOf : Ctx → List Field
  | .nil => []
  | .node _ fs _ _ _ _ => fs

/-- The `after` snapshot of a node. -/
def afterOf : Ctx → Ctx
  | .nil => .nil
  | .node _ _ a _ _ _ => a

end Ctx

/-- Modelled from the spec: `ctxtree.New`/`ctxtree.Make` —
`new(before?, after?)` snapshots both arguments, allocates an empty local
list and propagates the counters (§4.1).  In this pure embedding the
snapshot is the value of the argument at construction time. -/
def New (before after : Ctx) : Ctx :=
  .node before [] after
    (before.totUserOf + after.totUserOf)
    (before.totStdOf + after.totStdOf)
    (before.Len + after.Len)

namespace Ctx

/-- Modelled from the spec: `(*Ctx).AddField` appends the field to `local`
and increments `tot_user` or `tot_std` depending on `field.standardized`
(§4.1).  On an absent context the operation is a no-op (a `nil` receiver
never occurs through the public API). -/
def AddField (c : Ctx) (f : Field) : Ctx :=
  match c with
  | .nil => .nil
  | .node b fs a tu ts n =>
      .node b (fs ++ [f]) a
        (if f.standardized then tu else tu + 1)
        (if f.standardized then ts + 1 else ts)
        (n + 1)

/-- Modelled from the spec: `(*Ctx).Add` appends
`{key, value, standardized: false}` and increments `tot_user` (§4.1). -/
def Add (c : Ctx) (k : String) (v : Value) : Ctx :=
  c.AddField ⟨k, v, false⟩

/-- Modelled from the spec: `(*Ctx).AddFields` is the bulk version of
`AddField`; counters are updated per element (§4.1). -/
def AddFields (c : Ctx) (fs : List Field) : Ctx :=
  fs.foldl AddField c

end Ctx

/-- Modelled from the spec: an argument of the heterogeneous
`(*Ctx).AddAll` ingest (§4.1): a key string, a pre-built `Field` record, or
a value.  `val` covers both pre-built `fld.Value` arguments (which pass
through unconverted) and plain native values (which the Go code wraps with
the appropriate tag by lookup; the wrapping is reflected in the chosen
`Value` constructor). -/
inductive AddArg where
  | str (s : String)
  | field (f : Field)
  | val (v : Value)
  deriving DecidableEq, Repr

/-- The value an `AddAll` argument contributes when consumed in value
position: a string becomes a `String`-tagged value, a value passes through.
A `Field` in value position is not covered by the spec's alternating
protocol; it is wrapped opaquely (best effort, never exercised). -/
def argValue : AddArg → Value
  | .str s => .vString s
  | .val v => v
  | .field _ => .vAny none

/-- Modelled from the spec: `(*Ctx).AddAll` — heterogeneous ingest of
alternating `(key, value)` pairs and interleaved pre-built `Field` records.
A `Field` argument consumes one positional slot, a string argument consumes
two (itself plus the following value) (§4.1).  Malformed suffixes (a
dangling key, a value with no preceding key) are recovered from locally
per the error policy (§7): they add nothing. -/
def Ctx.AddAll : Ctx → List AddArg → Ctx
  | c, [] => c
  | c, .field f :: rest => (c.AddField f).AddAll rest
  | c, .str k :: v :: rest => (c.Add k (argValue v)).AddAll rest
  | c, .str _ :: [] => c
  | c, .val _ :: rest => c.AddAll rest

/-- The raw (pre-collapse) depth-first key/value stream of a context:
first `before` (recursively), then the local fields in insertion order,
then `after` (§4.4). -/
def rawPairs : Ctx → List (String × Value)
  | .nil => []
  | .node b fs a _ _ _ =>
      rawPairs b ++ fs.map (fun f => (f.key, f.value)) ++ rawPairs a

/-- Shadow collapse (§4.4): the final occurrence of a key in the merged
stream is the effective one; every earlier occurrence of the same key is
suppressed. -/
def collapse : List (String × Value) → List (String × Value)
  | [] => []
  | (k, v) :: rest =>
      if rest.any (fun p => p.1 == k) then collapse rest
      else (k, v) :: collapse rest

/-- Modelled from the spec: `(*Ctx).VisitKeyValues` — the flat traversal
streams `on_value(key, value)` for the depth-first merged stream with
duplicate keys collapsed to the last write (§4.4).  The visitor-callback
plumbing is represented by the emitted list itself. -/
def Ctx.VisitKeyValues (c : Ctx) : List (String × Value) :=
  collapse (rawPairs c)

/-- Split a dotted key into segments on `'.'` (working over the character
list; `String.splitOn` semantics for a one-character separator). -/
def splitDotAux : List Char → List Char → List String
  | [], acc => [String.mk acc.reverse]
  | c :: rest, acc =>
      if c = '.' then String.mk acc.reverse :: splitDotAux rest []
      else splitDotAux rest (c :: acc)

/-- Segments of a dotted key (§4.4: keys are split on `.`). -/
def splitDot (s : String) : List String :=
  splitDotAux s.data []

/-- Two dotted keys conflict for the structured view when the segment list
of one is a prefix of the other's (equal keys conflict in particular):
spec §4.4 structured rule 2 (full-path shadowing, and scalar/object
conflicts at the same node). -/
def conflictKeys (k1 k2 : String) : Bool :=
  (splitDot k1).isPrefixOf (splitDot k2) || (splitDot k2).isPrefixOf (splitDot k1)

/-- Structured shadow collapse (§4.4 structured rule 2): an entry is
dropped when a later entry's key conflicts with it (same full dotted path,
or a scalar/object conflict at the same node); the later write wins. -/
def structCollapse : List (String × Value) → List (String × Value)
  | [] => []
  | (k, v) :: rest =>
      if rest.any (fun p => conflictKeys k p.1) then structCollapse rest
      else (k, v) :: structCollapse rest

/-- An event of the structured visitor stream (§4.4):
`on_obj_start(segment)`, `on_value(leaf_segment, value)`, `on_obj_end()`. -/
inductive Event where
  | objStart (seg : String)
  | value (seg : String) (v : Value)
  | objEnd
  deriving DecidableEq, Repr

/-- Longest common prefix of two segment paths. -/
def commonPrefix : List String → List String → List String
  | a :: as, b :: bs => if a = b then a :: commonPrefix as bs else []
  | _, _ => []

/-- One step of the structured traversal: close objects up to the lowest
common ancestor of the currently open path and the entry's object path,
open the new segments, and emit the leaf value (§4.4 structured rule 1).
Returns the new open path and the emitted events. -/
def structStep (stk : List String) (k : String) (v : Value) :
    List String × List Event :=
  let segs := splitDot k
  let objPath := segs.dropLast
  let leafSeg := segs.getLastD ""
  let keep := commonPrefix stk objPath
  (objPath,
    List.replicate (stk.length - keep.length) Event.objEnd
      ++ (objPath.drop keep.length).map Event.objStart
      ++ [Event.value leafSeg v])

/-- The structured event stream of a (collapsed) flat stream: fold
`structStep` over the entries and close the objects left open at the end. -/
def structuredEvents (ps : List (String × Value)) : List Event :=
  let st := ps.foldl
    (fun (st : List String × List Event) p =>
      let r := structStep st.1 p.1 p.2
      (r.1, st.2 ++ r.2))
    ([], [])
  st.2 ++ List.replicate st.1.length Event.objEnd

/-- Modelled from the spec: `(*Ctx).VisitStructured` — the structured
traversal interprets each dotted key as a path into nested objects and is
realized as a second pass over the raw depth-first stream after the
structured shadow collapse (§4.4; design note "Structured vs flat
duality"). -/
def Ctx.VisitStructured (c : Ctx) : List Event :=
  structuredEvents (structCollapse (rawPairs c))

/-! ## The message formatter (`fld/fldfmt.go`) -/

/-- Index of the first character satisfying `p` (the search loops of
`strings.IndexAny` / `strings.IndexRune` / the manual `'}'` scan). -/
def indexOf? (p : Char → Bool) : List Char → Option Nat
  | [] => none
  | c :: rest => if p c then some 0 else (indexOf? p rest).map (· + 1)

/-- Go string slicing `s[a:b]`. -/
def seg (s : List Char) (a b : Nat) : List Char :=
  (s.take b).drop a

/-- `advanceToFmt` (fldfmt.go): scan from `start` for the next `'\\'` or
`'%'`; when the character at the scan start is a backslash, skip past the
found index and continue.  The Go loop advances `start` by at least one
per iteration, so the explicit structural fuel (callers pass `e + 1`)
never runs out; on the unreachable exhaustion path the function returns
`e` ("no directive found"). -/
def advanceToFmt (msg : List Char) : Nat → Nat → Nat → Nat
  | 0, _, e => e
  | gas + 1, start, e =>
    if start < e then
      match indexOf? (fun c => c == '\\' || c == '%') (msg.drop start) with
      | none => e
      | some idx =>
          if msg.get? start = some '\\' then
            advanceToFmt msg gas (start + idx + 1) e
          else start + idx
    else e

/-- A Go runtime panic of the formatter (out-of-range string index), plus
the artificial fuel-exhaustion marker of this embedding (unreachable from
`Format`, which supplies sufficient fuel). -/
inductive FmtErr where
  | indexOutOfRange
  | fuelExhausted
  deriving DecidableEq, Repr

/-- A Go `error` value, reduced to what the core observes: its
`Error()` string. -/
structure GoError where
  msg : String
  deriving DecidableEq, Repr

/-- A Go `interface{}` argument as the formatter and logger discriminate
it: a pre-built `fld.Field`, an `error`, an explicitly passed `fld.Value`,
any other native value (opaque token), or the `nil` interface (the
stand-in for a missing positional argument). -/
inductive GoArg where
  | field (f : Field)
  | err (e : GoError)
  | fldValue (v : Value)
  | native (tok : String)
  | nil
  deriving DecidableEq, Repr

/-- `true` exactly when the Go type assertion `arg.(error)` succeeds. -/
def isErrArg : GoArg → Bool
  | .err _ => true
  | _ => false

/-- One invocation of the formatter callback `cb(key, idx, val)`. -/
structure Capture where
  key : String
  idx : Nat
  arg : GoArg
  deriving DecidableEq, Repr

/-- The argument a buffered formatting step operates on: either the raw
interface argument, or — when the argument was a `Field` — the field's
materialized inner value (`fld.Value.Interface()`). -/
inductive FmtArg where
  | ofArg (a : GoArg)
  | ofVal (v : Value)
  deriving DecidableEq, Repr

/-- An item appended to the printer's buffer: a literal chunk
(`buf.WriteString`), a printf application `fmt.Fprintf(p, directive, x)`,
or a JSON encoding (`json.NewEncoder(p).Encode(x)`). -/
inductive OutItem where
  | lit (s : List Char)
  | pf (directive : List Char) (a : FmtArg)
  | jsonEnc (a : FmtArg)
  deriving DecidableEq, Repr

/-- The marker-search loop of `parseProperty` (fldfmt.go):
`for m < len(p) && m != ':' { m++ }`.  Note the Go code compares the
*index* `m` with the rune constant `':'` (58), not `p[m]`; the loop is
embedded as written.  Fuel `p.length + 1` is always sufficient (the loop
stops at `min(len p, 58)`). -/
def scanColon (p : List Char) : Nat → Nat → Nat
  | 0, m => m
  | gas + 1, m => if m < p.length && m != 58 then scanColon p gas (m + 1) else m

/-- `parseProperty` (fldfmt.go): compute the marker index `m`, take the
pattern as `p[m:]` when `m < len(p)` and `"v"` otherwise, strip a leading
`'+'`/`'#'`/`'@'` prefix, and return `(key, pattern, prefix)` with
`key = p[i:m]`.  Reading `p[0]` of an empty property body is a runtime
panic. -/
def parseProperty (p : List Char) :
    Except FmtErr (List Char × List Char × Option Char) :=
  let m := scanColon p (p.length + 1) 0
  let pattern := if m < p.length then p.drop m else ['v']
  match p.get? 0 with
  | none => .error .indexOutOfRange
  | some c =>
      if c = '+' || c = '#' || c = '@' then .ok (seg p 1 m, pattern, some c)
      else .ok (seg p 0 m, pattern, none)

/-- The directive assembled by `(*printer).format`:
`'%' + prefix? + pattern`, with an empty pattern replaced by `"v"`. -/
def fmtDirective (pfx : Option Char) (pattern : List Char) : List Char :=
  '%' :: ((match pfx with | some c => [c] | none => []) ++
    (if pattern = [] then ['v'] else pattern))

/-- `(*printer).format` (fldfmt.go): with prefix `'@'` the argument is
JSON-encoded regardless of the pattern; otherwise it is printed with the
assembled directive. -/
def formatOut (pfx : Option Char) (pattern : List Char) (a : FmtArg) : OutItem :=
  if pfx = some '@' then .jsonEnc a else .pf (fmtDirective pfx pattern) a

/-- `(*printer).printf` (fldfmt.go), embedded as a recursion over the scan
position `i` with explicit structural fuel (the Go loop strictly advances
`i`, so the `msg.length + 1` fuel supplied by `Format` never runs out).
State: current position `i`, argument index `argIdx`, output buffer `out`,
callback invocations so far `caps`.  Result: buffer, callback invocations
and the number of consumed arguments — or the runtime panic the Go code
incurs (`msg[i+1]` read past the end of the template, or `parseProperty`
applied to an empty property body). -/
def printfLoop (msg : List Char) (args : List GoArg) :
    Nat → Nat → Nat → List OutItem → List Capture →
    Except FmtErr (List OutItem × List Capture × Nat)
  | 0, _, _, _, _ => .error .fuelExhausted
  | gas + 1, i, argIdx, out, caps =>
    let e := msg.length
    if i < e then
      let i' := advanceToFmt msg (e + 1) i e
      let out1 := if i < i' then out ++ [.lit (seg msg i i')] else out
      if i' ≥ e then .ok (out1, caps, argIdx)
      else
        match msg.get? (i' + 1) with
        | none => .error .indexOutOfRange
        | some c =>
          if c ≠ '{' then
            -- plain format verb: scan to the next space (or the end)
            let fr :=
              match indexOf? (fun ch => ch == ' ') (msg.drop i') with
              | none => (msg.drop i', e)
              | some sIdx => (seg msg i' (i' + sIdx), i' + sIdx)
            let arg := args.getD argIdx .nil
            let caps1 :=
              if isErrArg arg then caps ++ [⟨"", argIdx, arg⟩] else caps
            match arg with
            | .field f =>
                printfLoop msg args gas fr.2 (argIdx + 1)
                  (out1 ++ [.pf fr.1 (.ofVal f.value)])
                  (caps1 ++ [⟨"", argIdx, arg⟩])
            | _ =>
                printfLoop msg args gas fr.2 (argIdx + 1)
                  (out1 ++ [.pf fr.1 (.ofArg arg)]) caps1
          else
            -- property: find the closing '}'
            let ip := i' + 1
            match indexOf? (fun ch => ch == '}') (msg.drop (ip + 1)) with
            | none => .ok (out1 ++ [.lit (seg msg ip e)], caps, argIdx)
            | some d =>
              let j := ip + 1 + d
              match parseProperty (seg msg (ip + 1) j) with
              | .error pe => .error pe
              | .ok (key, pattern, pfx) =>
                let arg := args.getD argIdx .nil
                match arg with
                | .field f =>
                    printfLoop msg args gas (j + 1) (argIdx + 1)
                      (out1 ++ [formatOut pfx pattern (.ofVal f.value)])
                      (caps ++ [⟨"", argIdx, arg⟩])
                | _ =>
                    printfLoop msg args gas (j + 1) (argIdx + 1)
                      (out1 ++ [formatOut pfx pattern (.ofArg arg)])
                      (caps ++ [⟨String.mk key, argIdx, arg⟩])
    else .ok (out, caps, argIdx)

/-- `fld.Format` (fldfmt.go): run `printf`; when fewer arguments were
consumed than supplied, walk the remainder in order, report every `error`
among them to the callback with an empty key and its positional index, and
return the remainder as `rest` (the rendered string and `nil` rest
otherwise). -/
def Format (msg : List Char) (args : List GoArg) :
    Except FmtErr (List OutItem × List Capture × List GoArg) :=
  match printfLoop msg args (msg.length + 1) 0 0 [] [] with
  | .error pe => .error pe
  | .ok (out, caps, used) =>
      if args.length ≤ used then .ok (out, caps, [])
      else
        let rest := args.drop used
        let extra := rest.enum.filterMap
          (fun p => if isErrArg p.2 then some (⟨"", used + p.1, p.2⟩ : Capture) else none)
        .ok (out, caps ++ extra, rest)

/-! ## The logger facade (package `ecslog`) -/

/-- `backend.Level` (backend/backend.go): `Trace < Debug < Info < Error`. -/
inductive Level where
  | trace
  | debug
  | info
  | error
  deriving DecidableEq, Repr

/-- The backend of a logger, reduced to the two queries the facade makes
before emitting a record (`IsEnabled`, `UseContext`); the `Log` method is
observed through the list of emitted `LogRecord`s. -/
structure Backend where
  enabled : Level → Bool
  useContext : Bool

/-- `ecslog.Logger`: a context plus a backend. -/
structure Logger where
  ctx : Ctx
  backend : Backend

/-- `ecslog.New` (part of the `ecslog` package): a fresh logger with an
empty context `ctxtree.Make(nil, nil)`. -/
def newLogger (b : Backend) : Logger :=
  ⟨New .nil .nil, b⟩

/-- `(*Logger).With`: derive a logger whose context takes the parent
logger's context as its `before` snapshot and ingests the arguments via
`AddAll`. -/
def Logger.With (l : Logger) (args : List AddArg) : Logger :=
  ⟨(New l.ctx .nil).AddAll args, l.backend⟩

/-- The final message handed to the backend: the rendered buffer, plus —
when unused arguments remained — the `"{EXTRA_FIELDS: …}"` suffix
(`fmt.Sprintf("%s {EXTRA_FIELDS: %v}", msg, rest)`). -/
inductive Msg where
  | plain (out : List OutItem)
  | withExtra (out : List OutItem) (rest : List GoArg)
  deriving DecidableEq, Repr

/-- One call of `backend.Log(lvl, caller, msg, ctx, causes)`.  The caller
is represented by the `skip` depth passed to `backend.GetCaller`. -/
structure LogRecord where
  lvl : Level
  callerSkip : Nat
  msg : Msg
  ctx : Ctx
  causes : List GoError
  deriving Repr

/-- `ensureKey` (logger.go): an empty capture key is replaced by the
stringified positional index. -/
def ensureKey (key : String) (idx : Nat) : String :=
  if key = "" then toString idx else key

/-- `errOf` projects the Go type assertion `val.(error)`. -/
def errOf : GoArg → Option GoError
  | .err e => some e
  | _ => none

/-- The capture callback the logger passes to `fld.Format` in
`(*Logger).logMsgCtx`, applied to the accumulated `(ctx, causes)` state:
* a `Field` with a non-empty key is added under the composed key
  `fmt.Sprintf("%v.%v", key, field.Key)` via `Add`; with an empty key it
  is added verbatim via `AddField`;
* a `fld.Value` is added under `ensureKey(key, idx)`;
* an `error` is appended to `causes`, and — only when the key is
  non-empty — also added as the user field `fld.String(key, v.Error())`;
* anything else is added as `fld.Any(ensureKey(key, idx), val)`. -/
def applyCapture (st : Ctx × List GoError) (c : Capture) : Ctx × List GoError :=
  match c.arg with
  | .field f =>
      if c.key ≠ "" then (st.1.Add (c.key ++ "." ++ f.key) f.value, st.2)
      else (st.1.AddField f, st.2)
  | .fldValue v => (st.1.Add (ensureKey c.key c.idx) v, st.2)
  | .err er =>
      ((if c.key ≠ "" then st.1.AddField (fldString c.key er.msg) else st.1),
        st.2 ++ [er])
  | .native tok => (st.1.AddField (fldAny (ensureKey c.key c.idx) (some tok)), st.2)
  | .nil => (st.1.AddField (fldAny (ensureKey c.key c.idx) none), st.2)

/-- `(*Logger).logMsgCtx`: build the log-call context
`ctxtree.Make(&l.ctx, nil)`, format the message (the callback effects are
the fold of `applyCapture` over the callback invocations, in order),
append the `{EXTRA_FIELDS: …}` suffix when arguments remain, and hand the
record to the backend. -/
def Logger.logMsgCtx (l : Logger) (lvl : Level) (skip : Nat)
    (msg : List Char) (args : List GoArg) : Except FmtErr (List LogRecord) :=
  match Format msg args with
  | .error pe => .error pe
  | .ok (out, caps, rest) =>
      let st := caps.foldl applyCapture (New l.ctx .nil, [])
      let m := if rest.length > 0 then Msg.withExtra out rest else Msg.plain out
      .ok [⟨lvl, skip + 1, m, st.1, st.2⟩]

/-- `(*Logger).logMsg` (the no-context path): the callback only collects
`error` arguments into `causes`; the record carries the empty context
`ctxtree.Make(nil, nil)`. -/
def Logger.logMsg (_l : Logger) (lvl : Level) (skip : Nat)
    (msg : List Char) (args : List GoArg) : Except FmtErr (List LogRecord) :=
  match Format msg args with
  | .error pe => .error pe
  | .ok (out, caps, rest) =>
      let causes := caps.filterMap (fun c => errOf c.arg)
      let m := if rest.length > 0 then Msg.withExtra out rest else Msg.plain out
      .ok [⟨lvl, skip + 1, m, New .nil .nil, causes⟩]

/-- `(*Logger).log`: return immediately when the backend reports the
level disabled; otherwise dispatch on `UseContext`. -/
def Logger.log (l : Logger) (lvl : Level) (skip : Nat)
    (msg : List Char) (args : List GoArg) : Except FmtErr (List LogRecord) :=
  if !(l.backend.enabled lvl) then .ok []
  else if l.backend.useContext then l.logMsgCtx lvl (skip + 1) msg args
  else l.logMsg lvl (skip + 1) msg args

/-- `(*Logger).Trace`. -/
def Logger.Trace (l : Logger) (msg : List Char) (args : List GoArg) :
    Except FmtErr (List LogRecord) :=
  l.log .trace 1 msg args

/-- `(*Logger).Debug`. -/
def Logger.Debug (l : Logger) (msg : List Char) (args : List GoArg) :
    Except FmtErr (List LogRecord) :=
  l.log .debug 1 msg args

/-- `(*Logger).Info`. -/
def Logger.Info (l : Logger) (msg : List Char) (args : List GoArg) :
    Except FmtErr (List LogRecord) :=
  l.log .info 1 msg args

/-- `(*Logger).Error`. -/
def Logger.Error (l : Logger) (msg : List Char) (args : List GoArg) :
    Except FmtErr (List LogRecord) :=
  l.log .error 1 msg args

/-! ## Reachable contexts and the counter invariant -/

/-- The contexts constructible through the public API: absent contexts,
`New` of constructible contexts, and any `add` operation applied to a
constructible context. -/
inductive Built : Ctx → Prop where
  | nil : Built .nil
  | new {b a : Ctx} : Built b → Built a → Built (New b a)
  | add {c : Ctx} (k : String) (v : Value) : Built c → Built (c.Add k v)
  | addField {c : Ctx} (f : Field) : Built c → Built (c.AddField f)
  | addFields {c : Ctx} (fs : List Field) : Built c → Built (c.AddFields fs)
  | addAll {c : Ctx} (args : List AddArg) : Built c → Built (c.AddAll args)

/-- The hereditary counter invariant of a context node: the stored `len`
equals `before.len + len(local) + after.len`, the stored user/std counters
sum to `len`, and `len` counts the raw (uncollapsed) depth-first stream —
one entry per stored field, duplicates included. -/
def counterInv : Ctx → Prop
  | .nil => True
  | .node b fs a tu ts n =>
      counterInv b ∧ counterInv a ∧
      n = b.Len + fs.length + a.Len ∧
      tu + ts = n ∧
      n = (rawPairs b).length + fs.length + (rawPairs a).length

/-! ## The two-cell state machine for snapshot isolation -/

/-- A mutation of a context through its owner: the four `add` entry
points. -/
inductive MutOp where
  | add (k : String) (v : Value)
  | addField (f : Field)
  | addFields (fs : List Field)
  | addAll (args : List AddArg)

/-- Apply one mutation. -/
def mutate (c : Ctx) : MutOp → Ctx
  | .add k v => c.Add k v
  | .addField f => c.AddField f
  | .addFields fs => c.AddFields fs
  | .addAll args => c.AddAll args

/-- The state after `c = new(p, null)`: the parent cell and the child
cell of the mutable-store model (each Go variable is one cell; `new`
snapshots the parent's current value into the child's `before`). -/
structure ParentChild where
  parent : Ctx
  child : Ctx

/-- Initial state: construct the child from the parent's current value. -/
def pcInit (p : Ctx) : ParentChild :=
  ⟨p, New p .nil⟩

/-- One mutation of the parent cell performed after the child was
constructed (the only cell the operation addresses). -/
def pcStep (s : ParentChild) (op : MutOp) : ParentChild :=
  ⟨mutate s.parent op, s.child⟩

/-- The logger-level analogue for `(*Logger).With`: parent logger and
derived logger. -/
structure ParentChildLogger where
  parent : Logger
  child : Logger

/-- Initial state: derive the child logger via `With`. -/
def lpcInit (l : Logger) (args : List AddArg) : ParentChildLogger :=
  ⟨l, l.With args⟩

/-- One mutation of the parent logger's context cell after derivation. -/
def lpcStep (s : ParentChildLogger) (op : MutOp) : ParentChildLogger :=
  ⟨⟨mutate s.parent.ctx op, s.parent.backend⟩, s.child⟩

/-! ## The per-capture context effect (spec §4.3) -/

/-- The fields one capture contributes to the log-call context, as
described by spec §4.3 ("Field ingest from named captures").  This is the
specification-side description; the theorems below show the source's
callback (`applyCapture`, folded over the capture sequence) realizes it. -/
def capFields (c : Capture) : List Field :=
  match c.arg with
  | .field f =>
      if c.key ≠ "" then [⟨c.key ++ "." ++ f.key, f.value, false⟩] else [f]
  | .fldValue v => [⟨ensureKey c.key c.idx, v, false⟩]
  | .err er => if c.key ≠ "" then [fldString c.key er.msg] else []
  | .native tok => [fldAny (ensureKey c.key c.idx) (some tok)]
  | .nil => [fldAny (ensureKey c.key c.idx) none]

/-! ## Concrete scenarios from the test suite and the spec -/

/-- Scenario D of spec §8 / `TestCtxBuild` "new context does not overwrite
before elements": `after.add_all("hello","world","overwrite",1);
c = new(nil, after); c.add_all("overwrite",2)`. -/
def ctxScenD : Ctx :=
  (New .nil ((New .nil .nil).AddAll
      [.str "hello", .str "world", .str "overwrite", .val (.vInt 1)])).AddAll
    [.str "overwrite", .val (.vInt 2)]

/-- Scenario E of spec §8 / `TestCtxVisitStructured`: dotted keys
`a.b.field1, a.b.field2, a.c.field1, a.c.field2, z.c, z.d`. -/
def ctxScenE : Ctx :=
  (New .nil .nil).AddAll
    [.field (fldString "a.b.field1" "test"),
     .field (fldString "a.b.field2" "test"),
     .field (fldInt "a.c.field1" 1),
     .field (fldInt "a.c.field2" 2),
     .field (fldInt "z.c" 5),
     .field (fldInt "z.d" 6)]

/-- A backend that accepts every level and consumes contexts (used to
instantiate logger-level statements). -/
def bCtx : Backend := ⟨fun _ => true, true⟩

/-- A backend that reports every level disabled. -/
def bOff : Backend := ⟨fun _ => false, true⟩

/-! ## Properties of the shadow collapse -/

/-- First binding of a key in a flat stream (total lookup on the emitted,
duplicate-free stream). -/
def lookupKey (k : String) : List (String × Value) → Option Value
  | [] => none
  | p :: rest => if p.1 = k then some p.2 else lookupKey k rest

/-- The value of the final occurrence of a key in a stream (the effective
value under the shadowing rule). -/
def lastWrite (k : String) : List (String × Value) → Option Value
  | [] => none
  | p :: rest =>
      match lastWrite k rest with
      | some w => some w
      | none => if p.1 = k then some p.2 else none

theorem collapse_sublist (l : List (String × Value)) :
    (collapse l).Sublist l := by
  induction l with
  | nil => simp [collapse]
  | cons hd tl ih =>
      obtain ⟨k, v⟩ := hd
      by_cases h : tl.any (fun p => p.1 == k)
      · simpa [collapse, h] using ih.cons (k, v)
      · simpa [collapse, h] using ih.cons₂ (k, v)

theorem mem_keys_of_any {l : List (String × Value)} {k : String}
    (h : l.any (fun p => p.1 == k)) : k ∈ l.map Prod.fst := by
  rcases List.any_eq_true.mp h with ⟨p, hp, he⟩
  exact List.mem_map.mpr ⟨p, hp, beq_iff_eq.mp he⟩

theorem any_of_mem_keys {l : List (String × Value)} {k : String}
    (h : k ∈ l.map Prod.fst) : l.any (fun p => p.1 == k) := by
  rcases List.mem_map.mp h with ⟨p, hp, he⟩
  exact List.any_eq_true.mpr ⟨p, hp, beq_iff_eq.mpr he⟩

theorem keys_collapse_nodup (l : List (String × Value)) :
    ((collapse l).map Prod.fst).Nodup := by
  induction l with
  | nil => simp [collapse]
  | cons hd tl ih =>
      obtain ⟨k, v⟩ := hd
      by_cases h : tl.any (fun p => p.1 == k)
      · simpa [collapse, h] using ih
      · rw [collapse, if_neg h]
        simp only [List.map_cons, List.nodup_cons]
        refine ⟨fun hk => ?_, ih⟩
        exact h (any_of_mem_keys (((collapse_sublist tl).map Prod.fst).subset hk))

theorem lastWrite_isSome_of_any {l : List (String × Value)} {k : String}
    (h : l.any (fun p => p.1 == k)) : (lastWrite k l).isSome := by
  induction l with
  | nil => simp at h
  | cons hd tl ih =>
      obtain ⟨k', v⟩ := hd
      rw [lastWrite]
      simp only [List.any_cons, Bool.or_eq_true] at h
      rcases h with h | h
      · rcases hmem : lastWrite k tl with _ | w
        · simp [beq_iff_eq.mp h]
        · simp
      · rcases hmem : lastWrite k tl with _ | w
        · have := ih h
          simp [hmem] at this
        · simp

theorem lastWrite_eq_none_of_not_any {l : List (String × Value)} {k : String}
    (h : ¬ l.any (fun p => p.1 == k)) : lastWrite k l = none := by
  induction l with
  | nil => rfl
  | cons hd tl ih =>
      obtain ⟨k', v⟩ := hd
      simp only [List.any_cons, Bool.or_eq_true, not_or] at h
      rw [lastWrite, ih h.2]
      have : ¬ k' = k := fun he => h.1 (beq_iff_eq.mpr he)
      simp [this]

theorem lookupKey_collapse (l : List (String × Value)) (k : String) :
    lookupKey k (collapse l) = lastWrite k l := by
  induction l with
  | nil => rfl
  | cons hd tl ih =>
      obtain ⟨k', v⟩ := hd
      by_cases h : tl.any (fun p => p.1 == k')
      · rw [collapse]
        simp only [h, if_true, ih, lastWrite]
        by_cases hk : k' = k
        · subst hk
          rcases hmem : lastWrite k' tl with _ | w
          · have := lastWrite_isSome_of_any h
            simp [hmem] at this
          · simp
        · rcases hmem : lastWrite k tl with _ | w <;> simp [hk]
      · rw [collapse, if_neg h]
        by_cases hk : k' = k
        · subst hk
          rw [lookupKey, lastWrite, lastWrite_eq_none_of_not_any h]
          simp
        · rw [lookupKey, lastWrite]
          simp only [hk, if_false, ih]
          rcases hmem : lastWrite k tl with _ | w <;> simp [hk]

/-! ## The structured view as a function of the flat view -/

theorem isPrefixOf_self {l : List String} : l.isPrefixOf l = true := by
  induction l with
  | nil => rfl
  | cons hd tl ih => simp [List.isPrefixOf, ih]

theorem conflictKeys_self (k : String) : conflictKeys k k = true := by
  simp [conflictKeys, isPrefixOf_self]

/-- Collapsing full-key duplicates does not change whether some entry
satisfies a key-determined predicate: the surviving final occurrence has
the same key. -/
theorem any_key_collapse (q : String → Bool) (l : List (String × Value)) :
    (collapse l).any (fun p => q p.1) = l.any (fun p => q p.1) := by
  induction l with
  | nil => rfl
  | cons hd tl ih =>
      obtain ⟨k, v⟩ := hd
      by_cases h : tl.any (fun p => p.1 == k)
      · rw [collapse, if_pos h, ih]
        simp only [List.any_cons]
        by_cases hq : q k
        · rcases List.any_eq_true.mp h with ⟨p, hp, he⟩
          have : tl.any (fun p => q p.1) = true :=
            List.any_eq_true.mpr ⟨p, hp, by rw [beq_iff_eq.mp he]; exact hq⟩
          simp [this]
        · simp [hq]
      · rw [collapse, if_neg h]
        simp [List.any_cons, ih]

/-- The structured shadow collapse factors through the flat shadow
collapse: entries dropped by the flat collapse (an identical key occurs
later) are also dropped by the structured collapse, and the conflict test
only looks at keys. -/
theorem structCollapse_collapse (l : List (String × Value)) :
    structCollapse (collapse l) = structCollapse l := by
  induction l with
  | nil => rfl
  | cons hd tl ih =>
      obtain ⟨k, v⟩ := hd
      by_cases h : tl.any (fun p => p.1 == k)
      · rw [collapse, if_pos h, ih]
        rcases List.any_eq_true.mp h with ⟨p, hp, he⟩
        have hc : tl.any (fun p => conflictKeys k p.1) = true :=
          List.any_eq_true.mpr
            ⟨p, hp, by rw [beq_iff_eq.mp he]; exact conflictKeys_self k⟩
        rw [structCollapse, if_pos hc]
      · rw [collapse, if_neg h, structCollapse,
          any_key_collapse (fun s => conflictKeys k s) tl, ih, structCollapse]

/-! ## Counter invariant preservation -/

theorem counterInv_len_eq {c : Ctx} (h : counterInv c) :
    c.totUserOf + c.totStdOf = c.Len := by
  cases c with
  | nil => rfl
  | node b fs a tu ts n => exact h.2.2.2.1

theorem counterInv_rawLen {c : Ctx} (h : counterInv c) :
    (rawPairs c).length = c.Len := by
  cases c with
  | nil => rfl
  | node b fs a tu ts n =>
      simp only [rawPairs, List.length_append, List.length_map, Ctx.Len]
      exact h.2.2.2.2.symm

theorem counterInv_new {b a : Ctx} (hb : counterInv b) (ha : counterInv a) :
    counterInv (New b a) := by
  refine ⟨hb, ha, by simp, ?_, ?_⟩
  · have h1 := counterInv_len_eq hb
    have h2 := counterInv_len_eq ha
    omega
  · have h1 := counterInv_rawLen hb
    have h2 := counterInv_rawLen ha
    simp only [List.length_nil]
    omega

theorem counterInv_addField {c : Ctx} (f : Field) (h : counterInv c) :
    counterInv (c.AddField f) := by
  cases c with
  | nil => exact h
  | node b fs a tu ts n =>
      obtain ⟨hb, ha, h1, h2, h3⟩ := h
      refine ⟨hb, ha, ?_, ?_, ?_⟩
      · simp only [List.length_append, List.length_singleton]
        omega
      · cases hs : f.standardized <;> simp [hs] <;> omega
      · simp only [List.length_append, List.length_singleton]
        omega

theorem counterInv_add {c : Ctx} (k : String) (v : Value) (h : counterInv c) :
    counterInv (c.Add k v) :=
  counterInv_addField _ h

theorem counterInv_addFields {c : Ctx} (fs : List Field) (h : counterInv c) :
    counterInv (c.AddFields fs) := by
  induction fs generalizing c with
  | nil => exact h
  | cons f rest ih => exact ih (counterInv_addField f h)

theorem counterInv_addAll :
    ∀ (args : List AddArg) (c : Ctx), counterInv c → counterInv (c.AddAll args)
  | [], _, h => h
  | .field f :: rest, _, h =>
      counterInv_addAll rest _ (counterInv_addField f h)
  | .str k :: v :: rest, _, h =>
      counterInv_addAll rest _ (counterInv_add k (argValue v) h)
  | .str _ :: [], _, h => h
  | .val _ :: rest, _, h => counterInv_addAll rest _ h

theorem counterInv_of_built {c : Ctx} (h : Built c) : counterInv c := by
  induction h with
  | nil => trivial
  | new _ _ ihb iha => exact counterInv_new ihb iha
  | add k v _ ih => exact counterInv_add k v ih
  | addField f _ ih => exact counterInv_addField f ih
  | addFields fs _ ih => exact counterInv_addFields fs ih
  | addAll args _ ih => exact counterInv_addAll args _ ih

/-! ## Snapshot isolation helpers -/

theorem pcFold_child (ops : List MutOp) (s : ParentChild) :
    (ops.foldl pcStep s).child = s.child := by
  induction ops generalizing s with
  | nil => rfl
  | cons op rest ih => rw [List.foldl_cons, ih]; rfl

theorem lpcFold_child (ops : List MutOp) (s : ParentChildLogger) :
    (ops.foldl lpcStep s).child = s.child := by
  induction ops generalizing s with
  | nil => rfl
  | cons op rest ih => rw [List.foldl_cons, ih]; rfl

/-! ## The capture fold of `logMsgCtx` -/

theorem applyCapture_causes (st : Ctx × List GoError) (c : Capture) :
    (applyCapture st c).2 = st.2 ++ (errOf c.arg).toList := by
  cases c with
  | mk key idx arg =>
      cases arg <;> by_cases hk : key = "" <;> simp [applyCapture, errOf, hk]

theorem applyCapture_node (b : Ctx) (fs : List Field) (a : Ctx)
    (tu ts n : Nat) (cs : List GoError) (c : Capture) :
    ∃ tu' ts' n',
      applyCapture (.node b fs a tu ts n, cs) c
        = (.node b (fs ++ capFields c) a tu' ts' n', cs ++ (errOf c.arg).toList) := by
  cases c with
  | mk key idx arg =>
      cases arg with
      | field f =>
          by_cases hk : key ≠ "" <;>
            simp [applyCapture, capFields, errOf, hk, Ctx.Add, Ctx.AddField]
      | err er =>
          by_cases hk : key ≠ ""
          · simp [applyCapture, capFields, errOf, hk, Ctx.AddField, fldString]
          · simp only [ne_eq, not_not] at hk
            simp [applyCapture, capFields, errOf, hk, Ctx.AddField]
      | fldValue v => simp [applyCapture, capFields, errOf, Ctx.Add, Ctx.AddField]
      | native tok => simp [applyCapture, capFields, errOf, Ctx.AddField, fldAny]
      | nil => simp [applyCapture, capFields, errOf, Ctx.AddField, fldAny]

/-- Folding the logger's capture callback over a capture sequence appends
exactly the per-capture fields of spec §4.3 to the local list, leaves the
`before`/`after` snapshots untouched, and appends the error captures (in
order) to the causes vector. -/
theorem capFold_node (caps : List Capture) :
    ∀ (b : Ctx) (fs : List Field) (a : Ctx) (tu ts n : Nat) (cs : List GoError),
    ∃ tu' ts' n',
      caps.foldl applyCapture (.node b fs a tu ts n, cs)
        = (.node b (fs ++ caps.flatMap capFields) a tu' ts' n',
            cs ++ caps.flatMap (fun c => (errOf c.arg).toList)) := by
  induction caps with
  | nil => intro b fs a tu ts n cs; exact ⟨tu, ts, n, by simp⟩
  | cons c rest ih =>
      intro b fs a tu ts n cs
      obtain ⟨tu1, ts1, n1, h1⟩ := applyCapture_node b fs a tu ts n cs c
      obtain ⟨tu', ts', n', h2⟩ :=
        ih b (fs ++ capFields c) a tu1 ts1 n1 (cs ++ (errOf c.arg).toList)
      refine ⟨tu', ts', n', ?_⟩
      rw [List.foldl_cons, h1, h2]
      simp

/-! ## Claim theorems -/

/-- **C1**: For every `Ctx` with predecessor, local fields and successor,
the flat traversal `visit_key_values` emits keys in depth-first order
(before, then local in insertion order, then after — the traversal is the
shadow collapse of the depth-first raw stream and a sublist of it, so the
surviving entries keep that order), and suppresses every occurrence of a
key except the final one in the merged stream (emitted keys are
duplicate-free and each key reports the value of its last raw occurrence);
in particular for scenario D — `after` containing `"overwrite" = 1` and
the local `add_all` writing `"overwrite" = 2` — the traversal reports the
value stored in `after`, not the local one. -/
theorem claim1_flat_traversal_shadowing :
    (∀ c : Ctx,
        c.VisitKeyValues = collapse (rawPairs c)
        ∧ c.VisitKeyValues.Sublist (rawPairs c)
        ∧ (c.VisitKeyValues.map Prod.fst).Nodup
        ∧ ∀ k, lookupKey k c.VisitKeyValues = lastWrite k (rawPairs c))
    ∧ ctxScenD.VisitKeyValues
        = [("hello", .vString "world"), ("overwrite", .vInt 1)]
    ∧ lookupKey "overwrite" ctxScenD.VisitKeyValues = some (.vInt 1) :=
  ⟨fun c =>
      ⟨rfl, collapse_sublist (rawPairs c), keys_collapse_nodup (rawPairs c),
        fun k => lookupKey_collapse (rawPairs c) k⟩,
    by decide, by decide⟩

/-- **C2**: Snapshot isolation — in the mutable-store model (one cell per
Go variable, `new` copying the parent cell's current value into the
child's `before`), every sequence of `add`/`add_field`/`add_fields`/
`add_all` mutations performed on the parent cell after `c = new(p, null)`
leaves the child cell, and hence its flat and structured traversals,
unchanged; likewise for a logger derived with `With`, whose context takes
the parent logger's context as its `before` snapshot. -/
theorem claim2_snapshot_isolation :
    (∀ (p : Ctx) (ops : List MutOp),
        (ops.foldl pcStep (pcInit p)).child = New p .nil
        ∧ (ops.foldl pcStep (pcInit p)).child.VisitKeyValues
            = (New p .nil).VisitKeyValues
        ∧ (ops.foldl pcStep (pcInit p)).child.VisitStructured
            = (New p .nil).VisitStructured)
    ∧ (∀ (l : Logger) (args : List AddArg) (ops : List MutOp),
        (ops.foldl lpcStep (lpcInit l args)).child = l.With args
        ∧ ((ops.foldl lpcStep (lpcInit l args)).child.ctx).VisitKeyValues
            = ((New l.ctx .nil).AddAll args).VisitKeyValues
        ∧ (l.With args).ctx = (New l.ctx .nil).AddAll args) := by
  constructor
  · intro p ops
    have h := pcFold_child ops (pcInit p)
    exact ⟨h, by rw [h]; rfl, by rw [h]; rfl⟩
  · intro l args ops
    have h := lpcFold_child ops (lpcInit l args)
    exact ⟨h, by rw [h]; rfl, rfl⟩

/-- **C3**: The structured traversal is a pure function of the collapsed
flat stream of `visit_key_values`: it equals the structured event stream
computed from the flat output, so any two contexts with equal flat outputs
produce identical `on_obj_start`/`on_value`/`on_obj_end` sequences; the
dotted keys of scenario E are split on `'.'` into the expected nested
objects. -/
theorem claim3_structured_pure_function_of_flat :
    (∀ c : Ctx,
        c.VisitStructured = structuredEvents (structCollapse c.VisitKeyValues))
    ∧ (∀ c₁ c₂ : Ctx, c₁.VisitKeyValues = c₂.VisitKeyValues →
        c₁.VisitStructured = c₂.VisitStructured)
    ∧ ctxScenE.VisitStructured =
        [.objStart "a", .objStart "b",
         .value "field1" (.vString "test"), .value "field2" (.vString "test"),
         .objEnd,
         .objStart "c", .value "field1" (.vInt 1), .value "field2" (.vInt 2),
         .objEnd, .objEnd,
         .objStart "z", .value "c" (.vInt 5), .value "d" (.vInt 6),
         .objEnd] := by
  have key : ∀ c : Ctx,
      c.VisitStructured = structuredEvents (structCollapse c.VisitKeyValues) := by
    intro c
    rw [Ctx.VisitStructured, Ctx.VisitKeyValues, structCollapse_collapse]
  refine ⟨key, fun c₁ c₂ h => ?_, by decide⟩
  rw [key c₁, key c₂, h]

/-- Concrete instantiation of the hypothesis-carrying part of
`claim3_structured_pure_function_of_flat`: two structurally different
contexts (a duplicate local write vs. the single surviving write) have
equal flat streams, hence identical structured event streams. -/
theorem claim3_structured_pure_function_of_flat_witness :
    ((New .nil .nil).AddAll [.str "k", .val (.vInt 1), .str "k", .val (.vInt 2)]).VisitStructured
      = ((New .nil .nil).AddAll [.str "k", .val (.vInt 2)]).VisitStructured :=
  claim3_structured_pure_function_of_flat.2.1 _ _ (by decide)

/-- **C4**: Counter invariant — for every context reachable through the
public construction and mutation API, the stored `len` equals
`(before?.len ?? 0) + len(local) + (after?.len ?? 0)`, `tot_user +
tot_std` equals `len`, and `len` equals the length of the raw depth-first
stream: duplicate keys are counted once per stored field, never
collapsed. -/
theorem claim4_counter_invariant (c : Ctx) (h : Built c) :
    c.Len = c.beforeOf.Len + c.localsOf.length + c.afterOf.Len
    ∧ c.totUserOf + c.totStdOf = c.Len
    ∧ c.Len = (rawPairs c).length := by
  have hi := counterInv_of_built h
  cases c with
  | nil => exact ⟨rfl, rfl, rfl⟩
  | node b fs a tu ts n =>
      obtain ⟨hb, ha, h1, h2, h3⟩ := hi
      refine ⟨h1, h2, ?_⟩
      simp only [Ctx.Len, rawPairs, List.length_append, List.length_map]
      omega

/-- Concrete instantiation of `claim4_counter_invariant`: a context built
with a duplicate key (stored twice, counted twice) nested under a `New`
with a non-empty `before`. -/
theorem claim4_counter_invariant_witness :
    let cW := (New ((New .nil .nil).AddAll
        [.str "k", .val (.vInt 1), .str "k", .val (.vInt 2)]) .nil).AddField
        ⟨"std", .vBool true, true⟩
    cW.Len = cW.beforeOf.Len + cW.localsOf.length + cW.afterOf.Len
    ∧ cW.totUserOf + cW.totStdOf = cW.Len
    ∧ cW.Len = (rawPairs cW).length :=
  claim4_counter_invariant _
    (Built.addField _ (Built.new (Built.addAll _ (Built.new .nil .nil)) .nil))

theorem capFold_causes (caps : List Capture) :
    ∀ st : Ctx × List GoError,
      (caps.foldl applyCapture st).2
        = st.2 ++ caps.flatMap (fun c => (errOf c.arg).toList) := by
  induction caps with
  | nil => intro st; simp
  | cons c rest ih =>
      intro st
      rw [List.foldl_cons, ih, applyCapture_causes]
      simp

/-- **C5** (refuted — the code panics): evaluating the formatter at the
failing inputs.  A template whose last character is an unescaped `'%'`
makes `printf` read `msg[i+1]` one byte past the end of the template — a
runtime panic, not a best-effort result; an empty property body `"%{}"`
makes `parseProperty` read `p[0]` of an empty string — the same panic.
A trailing backslash, by contrast, is emitted literally, and a missing
positional argument is formatted with the nil stand-in, as the claim
says. -/
theorem claim5_format_trailing_percent_panics :
    Format "%".data [] = .error .indexOutOfRange
    ∧ Format "100%".data [] = .error .indexOutOfRange
    ∧ Format "%{}".data [] = .error .indexOutOfRange
    ∧ Format "\\".data [] = .ok ([.lit ['\\']], [], [])
    ∧ Format "%{key}".data []
        = .ok ([.pf ['%', 'v'] (.ofArg .nil)], [⟨"key", 0, .nil⟩], []) :=
  ⟨rfl, rfl, rfl, rfl, rfl⟩

/-- **C6** (refuted — the verb split never happens): the marker-search
loop of `parseProperty` compares the loop *index* `m` with the rune
constant `':'` (58) instead of comparing `p[m]` with `':'`, so for every
property body shorter than 59 bytes the loop runs to the end of the body:
the reported capture key is the whole text after the optional prefix —
including any `:fmt_verb` suffix — and the assembled directive is always
`%<prefix?>v`.  For `"%{key:d}"` the code reports key `"key:d"` and
formats with `%v`, not key `"key"` with `%d`.  (The prefix handling and
the `"v"` default for a verb-less property do behave as claimed.) -/
theorem claim6_property_fmt_verb_never_split :
    Format "%{key:d}".data [.native "42"]
      = .ok ([.pf ['%', 'v'] (.ofArg (.native "42"))],
          [⟨"key:d", 0, .native "42"⟩], [])
    ∧ Format "%{key}".data [.native "42"]
      = .ok ([.pf ['%', 'v'] (.ofArg (.native "42"))],
          [⟨"key", 0, .native "42"⟩], [])
    ∧ Format "%{+key}".data [.native "42"]
      = .ok ([.pf ['%', '+', 'v'] (.ofArg (.native "42"))],
          [⟨"key", 0, .native "42"⟩], []) :=
  ⟨rfl, rfl, rfl⟩

/-- **C7**: An error-typed capture appends the error to the causes vector;
if and only if the capture key is non-empty it additionally adds a user
field under that key whose value is the error's string form; the causes
vector handed to the Sink collects exactly the error captures, in order. -/
theorem claim7_error_captures :
    (∀ (st : Ctx × List GoError) (key : String) (idx : Nat) (er : GoError),
        applyCapture st ⟨key, idx, .err er⟩
          = ((if key = "" then st.1 else st.1.AddField (fldString key er.msg)),
              st.2 ++ [er]))
    ∧ (∀ (st : Ctx × List GoError) (caps : List Capture),
        (caps.foldl applyCapture st).2
          = st.2 ++ caps.flatMap (fun c => (errOf c.arg).toList))
    ∧ (∀ (l : Logger) (lvl : Level) (skip : Nat) (msg : List Char)
          (args : List GoArg) (out : List OutItem) (caps : List Capture)
          (rest : List GoArg),
        Format msg args = .ok (out, caps, rest) →
        l.logMsgCtx lvl skip msg args
          = .ok [⟨lvl, skip + 1,
              (if rest.length > 0 then Msg.withExtra out rest else Msg.plain out),
              (caps.foldl applyCapture (New l.ctx .nil, [])).1,
              caps.flatMap (fun c => (errOf c.arg).toList)⟩]) := by
  refine ⟨?_, fun st caps => capFold_causes caps st, ?_⟩
  · intro st key idx er
    by_cases hk : key = "" <;> simp [applyCapture, hk]
  · intro l lvl skip msg args out caps rest h
    rw [Logger.logMsgCtx, h]
    have hc := capFold_causes caps (New l.ctx .nil, [])
    simp only [List.nil_append] at hc
    simp [hc]

/-- Concrete instantiation of `claim7_error_captures`: logging
`"%{reason}"` with one error argument appends the error to the causes and
adds the user field `reason = "oops"`. -/
theorem claim7_error_captures_witness :
    (newLogger bCtx).logMsgCtx .error 1 "%{reason}".data [.err ⟨"oops"⟩]
      = .ok [⟨.error, 2,
          Msg.plain [.pf ['%', 'v'] (.ofArg (.err ⟨"oops"⟩))],
          .node (New .nil .nil) [fldString "reason" "oops"] .nil 1 0 1,
          [⟨"oops"⟩]⟩] := by
  have h := claim7_error_captures.2.2 (newLogger bCtx) .error 1 "%{reason}".data
    [.err ⟨"oops"⟩] [.pf ['%', 'v'] (.ofArg (.err ⟨"oops"⟩))]
    [⟨"reason", 0, .err ⟨"oops"⟩⟩] [] rfl
  exact h

/-- **C8**: A capture reporting a pre-built `Field` adds the field to the
log-call context via `add_field`; when the capture carries a non-empty
explicit key, the field is instead added (as a user field) under the
composed key `key + "." + field.key`.  Folded over any capture sequence,
the log-call context built on `New l.ctx nil` holds exactly the
per-capture fields of spec §4.3, in order.  End to end, a property
capture whose argument is a `Field` is reported by the formatter with an
empty key, so the field enters verbatim via `add_field`. -/
theorem claim8_field_captures :
    (∀ (st : Ctx × List GoError) (key : String) (idx : Nat) (f : Field),
        applyCapture st ⟨key, idx, .field f⟩
          = ((if key = "" then st.1.AddField f
              else st.1.Add (key ++ "." ++ f.key) f.value), st.2))
    ∧ (∀ (key : String) (idx : Nat) (f : Field),
        capFields ⟨key, idx, .field f⟩
          = if key = "" then [f]
            else [⟨key ++ "." ++ f.key, f.value, false⟩])
    ∧ (∀ (l : Logger) (caps : List Capture),
        ∃ tu ts n,
          (caps.foldl applyCapture (New l.ctx .nil, [])).1
            = .node l.ctx (caps.flatMap capFields) .nil tu ts n)
    ∧ (newLogger bCtx).logMsgCtx .info 1 "%{key}".data
          [.field ⟨"host.name", .vString "local", true⟩]
        = .ok [⟨.info, 2,
            Msg.plain [.pf ['%', 'v'] (.ofVal (.vString "local"))],
            .node (New .nil .nil) [⟨"host.name", .vString "local", true⟩] .nil 0 1 1,
            []⟩] := by
  refine ⟨?_, ?_, ?_, rfl⟩
  · intro st key idx f
    by_cases hk : key = "" <;> simp [applyCapture, hk]
  · intro key idx f
    by_cases hk : key = "" <;> simp [capFields, hk]
  · intro l caps
    obtain ⟨tu, ts, n, h⟩ := capFold_node caps l.ctx [] .nil
      (l.ctx.totUserOf + Ctx.totUserOf .nil) (l.ctx.totStdOf + Ctx.totStdOf .nil)
      (l.ctx.Len + Ctx.Len .nil) []
    refine ⟨tu, ts, n, ?_⟩
    rw [show (New l.ctx .nil, ([] : List GoError))
        = ((.node l.ctx [] .nil (l.ctx.totUserOf + Ctx.totUserOf .nil)
            (l.ctx.totStdOf + Ctx.totStdOf .nil) (l.ctx.Len + Ctx.Len .nil)),
           ([] : List GoError)) from rfl, h]
    simp

/-- **C9**: When the formatter consumes fewer arguments than supplied, the
unused arguments are walked in order and every error among them is
reported to the capture callback with an empty key and its positional
index, and the returned rest is the remainder (which the logger renders as
the `{EXTRA_FIELDS: …}` suffix and whose error captures become additional
causes); when all arguments are consumed the rest is empty and the message
carries no suffix. -/
theorem claim9_unused_arguments :
    (∀ (msg : List Char) (args : List GoArg) (out : List OutItem)
        (caps : List Capture) (used : Nat),
        printfLoop msg args (msg.length + 1) 0 0 [] [] = .ok (out, caps, used) →
          (args.length ≤ used → Format msg args = .ok (out, caps, []))
          ∧ (used < args.length →
              Format msg args
                = .ok (out,
                    caps ++ (args.drop used).enum.filterMap
                      (fun p => if isErrArg p.2 then
                          some (⟨"", used + p.1, p.2⟩ : Capture) else none),
                    args.drop used)))
    ∧ (∀ (l : Logger) (lvl : Level) (skip : Nat) (msg : List Char)
          (args : List GoArg) (out : List OutItem) (caps : List Capture),
        Format msg args = .ok (out, caps, []) →
        l.logMsgCtx lvl skip msg args
          = .ok [⟨lvl, skip + 1, Msg.plain out,
              (caps.foldl applyCapture (New l.ctx .nil, [])).1,
              (caps.foldl applyCapture (New l.ctx .nil, [])).2⟩])
    ∧ (∀ (l : Logger) (lvl : Level) (skip : Nat) (msg : List Char)
          (args : List GoArg) (out : List OutItem) (caps : List Capture)
          (rest : List GoArg),
        Format msg args = .ok (out, caps, rest) → rest ≠ [] →
        l.logMsgCtx lvl skip msg args
          = .ok [⟨lvl, skip + 1, Msg.withExtra out rest,
              (caps.foldl applyCapture (New l.ctx .nil, [])).1,
              (caps.foldl applyCapture (New l.ctx .nil, [])).2⟩])
    ∧ Format "hi".data [.err ⟨"x"⟩]
        = .ok ([.lit "hi".data], [⟨"", 0, .err ⟨"x"⟩⟩], [.err ⟨"x"⟩])
    ∧ (newLogger bCtx).logMsgCtx .info 1 "hi".data [.err ⟨"x"⟩]
        = .ok [⟨.info, 2, Msg.withExtra [.lit "hi".data] [.err ⟨"x"⟩],
            New (New .nil .nil) .nil, [⟨"x"⟩]⟩] := by
  refine ⟨?_, ?_, ?_, rfl, rfl⟩
  · intro msg args out caps used h
    constructor
    · intro hle
      rw [Format, h]
      simp [hle]
    · intro hlt
      rw [Format, h]
      have : ¬ args.length ≤ used := by omega
      simp [this]
  · intro l lvl skip msg args out caps h
    rw [Logger.logMsgCtx, h]
    simp
  · intro l lvl skip msg args out caps rest h hne
    rw [Logger.logMsgCtx, h]
    have : rest.length > 0 := List.length_pos.mpr hne
    simp [this]

/-- Concrete instantiation of `claim9_unused_arguments`: a template with
no directives leaves the single (error) argument unused; the formatter
reports it with empty key at index 0 and returns it as rest. -/
theorem claim9_unused_arguments_witness :
    Format "hi".data [.err ⟨"x"⟩]
      = .ok ([.lit "hi".data],
          [] ++ ([GoArg.err ⟨"x"⟩].drop 0).enum.filterMap
            (fun p => if isErrArg p.2 then
                some (⟨"", 0 + p.1, p.2⟩ : Capture) else none),
          [GoArg.err ⟨"x"⟩].drop 0) :=
  (claim9_unused_arguments.1 "hi".data [.err ⟨"x"⟩] [.lit "hi".data] [] 0 rfl).2
    (by decide)

/-- **C10**: When the backend reports a level disabled, the corresponding
logging method performs no observable work: the result is `.ok []` — the
backend's `Log` is never called, and, the formatter not being invoked, no
capture callback fires and no formatter panic can surface (the pure
embedding leaves the logger's own context unchanged by construction). -/
theorem claim10_disabled_level_no_work :
    ∀ (l : Logger) (msg : List Char) (args : List GoArg),
      (l.backend.enabled .trace = false → l.Trace msg args = .ok [])
      ∧ (l.backend.enabled .debug = false → l.Debug msg args = .ok [])
      ∧ (l.backend.enabled .info = false → l.Info msg args = .ok [])
      ∧ (l.backend.enabled .error = false → l.Error msg args = .ok []) := by
  intro l msg args
  refine ⟨fun h => ?_, fun h => ?_, fun h => ?_, fun h => ?_⟩ <;>
    simp [Logger.Trace, Logger.Debug, Logger.Info, Logger.Error, Logger.log, h]

/-- Concrete instantiation of `claim10_disabled_level_no_work`: with every
level disabled, even the template that panics the formatter (`"%"`)
produces no record and no panic — the formatter was never invoked. -/
theorem claim10_disabled_level_no_work_witness :
    (⟨New .nil .nil, bOff⟩ : Logger).Trace "%".data [] = .ok []
    ∧ (⟨New .nil .nil, bOff⟩ : Logger).Error "%".data [] = .ok [] :=
  ⟨(claim10_disabled_level_no_work ⟨New .nil .nil, bOff⟩ "%".data []).1 rfl,
    (claim10_disabled_level_no_work ⟨New .nil .nil, bOff⟩ "%".data []).2.2.2 rfl⟩
